import Mathlib

/-!
Shallow embedding of `pymctoolslib/pymctoolslib.py`: the NBT view layer, the
item-type catalog interface (`ItemTypes` / `ItemType`), and the player
inventory stacking and slot-allocation engine (`PlayerInventory`).

Python objects are modelled with value semantics: a method that mutates
`self` takes the object and returns the updated one.  A method that can raise
returns the state paired with an `Except` result, so that "raised before any
mutation happened" is expressible and provable.  Scalar NBT counts are kept as
`Int` (NBT bytes are signed), slot addresses as `Int`.
-/

/-- Item identifiers: numeric (legacy worlds) or namespaced strings
(`BaseItem.key` first component, `item['id']`). -/
inductive ItemId where
  | num (n : Int)
  | str (s : String)
deriving DecidableEq

/-- The Python exceptions surfaced by the embedded code: `KeyError` from
catalog lookup, `AssertionError` from `ItemType.__init__` integrity checks,
`ValueError` from `stack_item` preconditions, `MCError` from `add_item`. -/
inductive PyErr where
  | keyError
  | assertionError
  | valueError
  | mcError
deriving DecidableEq

/-- `class ItemType`: item/block game data not tied to any NBT or world.
The constructor argument `prefix` is modelled as field `ns`. -/
structure ItemType where
  numid : Option Int
  strid : Option String
  meta : Option Int
  name : String
  obtainable : Bool
  is_block : Bool
  maxdamage : Int
  stacksize : Int
  armorslot : Option Int
  texture : Option String
  removed : Bool
  ns : String
deriving DecidableEq

/-- `ItemType.is_armor`: `bool(self.armorslot)`; armor slot numbers are
100..103, never 0, so truthiness coincides with presence. -/
def ItemType.is_armor (t : ItemType) : Bool :=
  t.armorslot.isSome

/-- The integrity checks (`assert` statements) run by `ItemType.__init__`. -/
def ItemType.checksB (t : ItemType) : Bool :=
  decide (t.maxdamage = 0 ∨ t.stacksize = 1) &&
  (match t.numid with
   | none => true
   | some n => t.is_block == decide (n < 256)) &&
  (t.is_block || t.obtainable) &&
  decide (t.stacksize = 1 ∨ t.stacksize = 16 ∨ t.stacksize = 64) &&
  (t.armorslot.isNone || decide (0 < t.maxdamage))

/-- `ItemType.__init__`: returns the constructed object, or raises
`AssertionError` when one of the integrity checks fails. -/
def mkItemType (t : ItemType) : Except PyErr ItemType :=
  if t.checksB then .ok t else .error .assertionError

/-- An inventory item (`class Item`, a `BaseItem` with a `Slot` tag).
`customname` models the optional `tag.display.Name` child; `itype` is the
`self.type` attribute resolved at construction time. -/
structure Item where
  id : ItemId
  damage : Int
  count : Int
  slot : Option Int
  customname : Option String
  itype : ItemType
deriving DecidableEq

/-- `BaseItem.key`: the `(id, Damage)` pair. -/
def Item.key (i : Item) : ItemId × Int :=
  (i.id, i.damage)

/-- `BaseItem.name`: the type name, or `custom [type name]` when the item
carries an Anvil display name. -/
def Item.name (i : Item) : String :=
  match i.customname with
  | some c => c ++ " [" ++ i.itype.name ++ "]"
  | none => i.itype.name

/-- `NbtBase.clone`: a deep copy; the identity under value semantics (the
aliasing content of `clone` is verified separately on the store model). -/
def Item.clone (i : Item) : Item :=
  i

/-- `Item.set_slot`: write (or create) the `Slot` tag. -/
def Item.set_slot (i : Item) (s : Int) : Item :=
  { i with slot := some s }

/-- `item['Slot']` for an item inside an inventory (the tag is present
there; `getD` is never exercised on a slotless item by the theorems). -/
def Item.slotD (i : Item) : Int :=
  i.slot.getD 0

/-- `class PlayerInventory`: the element list plus the free-slot bookkeeping
computed by `__init__`.  The element list stands for the `_list` cache and
the `_nbt` list together; their parity is proved on the `NbtListObject`
model below. -/
structure PlayerInventory where
  items : List Item
  free_slots : List Int
  free_armor : List Int
deriving DecidableEq

/-- The slot addresses taken by the inventory's items
(`set(_["Slot"] for _ in self)`). -/
def occupiedSlots (items : List Item) : List Int :=
  items.filterMap (·.slot)

/-- `PlayerInventory.__init__`: free main slots are the unoccupied part of
`range(36)`, free armor slots the unoccupied part of `range(100, 104)`,
both ascending (`sorted(set - set)`); 40 items short-circuit to no free
slots. -/
def PlayerInventory.ofNbt (items : List Item) : PlayerInventory :=
  if items.length = 40 then
    { items := items, free_slots := [], free_armor := [] }
  else
    let slots := occupiedSlots items
    { items := items,
      free_slots := ((List.range 36).map (fun n : Nat => (n : Int))).filter
        (fun s => decide (s ∉ slots)),
      free_armor := ([100, 101, 102, 103] : List Int).filter
        (fun s => decide (s ∉ slots)) }

/-- The armor-slot selection step of `add_item`: with `wear_armor` set and an
armor item, pick the item's own armor slot when it is free. -/
def armorChoice (inv : PlayerInventory) (item : Item) (wear_armor : Bool) :
    Option Int :=
  if wear_armor && item.itype.is_armor then
    match item.itype.armorslot with
    | some s => if s ∈ inv.free_armor then some s else none
    | none => none
  else none

/-- `PlayerInventory.add_item`: add an item (or a clone) to a free inventory
slot, returning the slot used, or raise `MCError` when no suitable slot is
free.  Armor preference removes the designated slot from `free_armor`;
otherwise the lowest free main slot is popped. -/
def PlayerInventory.add_item (inv : PlayerInventory) (item : Item)
    (wear_armor : Bool) (clone : Bool) : PlayerInventory × Except PyErr Int :=
  if inv.free_slots.isEmpty && inv.free_armor.isEmpty then
    (inv, .error .mcError)
  else
    match armorChoice inv item wear_armor with
    | some s =>
        let it := (if clone then item.clone else item).set_slot s
        ({ items := inv.items ++ [it],
           free_slots := inv.free_slots,
           free_armor := inv.free_armor.erase s }, .ok s)
    | none =>
        match inv.free_slots with
        | [] => (inv, .error .mcError)
        | s :: rest =>
            let it := (if clone then item.clone else item).set_slot s
            ({ items := inv.items ++ [it],
               free_slots := rest,
               free_armor := inv.free_armor }, .ok s)

/-- The merge loop of `stack_item`: scan the stacks in storage order, topping
up every stack with the same key and name that is below the stack size,
stopping once the carried count reaches zero.  Returns the updated element
list, the remaining count, and the recorded `(slot, diff)` pairs. -/
def stackScan (k : ItemId × Int) (nm : String) (size : Int) :
    List Item → Int → List Item × Int × List (Int × Int)
  | [], count => ([], count, [])
  | stack :: rest, count =>
      if stack.key = k ∧ stack.name = nm ∧ stack.count < size then
        let total := stack.count + count
        let diff := min size total - stack.count
        let stack' := { stack with count := stack.count + diff }
        let count' := count - diff
        if count' = 0 then
          (stack' :: rest, count', [(stack.slotD, diff)])
        else
          let r := stackScan k nm size rest count'
          (stack' :: r.1, r.2.1, (stack.slotD, diff) :: r.2.2)
      else
        let r := stackScan k nm size rest count
        (stack :: r.1, r.2.1, r.2.2)

/-- `PlayerInventory.stack_item`: add an item clone to the inventory, stacking
it onto similar items up to the type's stack size.  Raises `ValueError` when
the count is zero or above the stack size; single-stack items go through one
`add_item` attempt; a remainder after merging is placed through `add_item`,
and a capacity failure there keeps the partial merges. -/
def PlayerInventory.stack_item (inv : PlayerInventory) (item0 : Item)
    (wear_armor : Bool) : PlayerInventory × Except PyErr (Int × List (Int × Int)) :=
  let item := item0.clone
  let size := item.itype.stacksize
  let count := item.count
  if count = 0 then
    (inv, .error .valueError)
  else if size < count then
    (inv, .error .valueError)
  else if size = 1 then
    match inv.add_item item wear_armor true with
    | (inv', .ok slot) => (inv', .ok (0, [(slot, 1)]))
    | (inv', .error _) => (inv', .ok (count, []))
  else
    let r := stackScan item.key item.name size inv.items count
    let inv1 : PlayerInventory := { inv with items := r.1 }
    let count1 := r.2.1
    let slots := r.2.2
    if 0 < count1 then
      let item1 := { item with count := count1 }
      match inv1.add_item item1 wear_armor false with
      | (inv2, .ok slot) => (inv2, .ok (0, slots ++ [(slot, count1)]))
      | (inv2, .error _) => (inv2, .ok (count1, slots))
    else
      (inv1, .ok (count1, slots))

/-! ### `NbtListObject`: the cache / underlying-list pair -/

/-- `class NbtListObject`: the wrapped NBT list (`_nbt`) and the parallel
cache of objectified elements (`_list`).  Element objects hold exactly their
NBT data, so under value semantics both lists carry the element type. -/
structure NbtListObject (τ : Type) where
  _nbt : List τ
  _list : List τ

/-- Python `list.insert`: indices past the end append (`take`/`drop` clamp
the same way); negative indices are out of the model's scope. -/
def pyInsert {τ : Type} (l : List τ) (idx : Nat) (x : τ) : List τ :=
  l.take idx ++ x :: l.drop idx

/-- `NbtListObject.__init__`: the cache is built by objectifying every
element of the NBT list. -/
def NbtListObject.ofNbt {τ : Type} (nbt : List τ) : NbtListObject τ :=
  { _nbt := nbt, _list := nbt.map (fun x => x) }

/-- `NbtListObject.insert`: insert the element into the cache and its NBT
into the underlying list. -/
def NbtListObject.insertAt {τ : Type} (o : NbtListObject τ) (idx : Nat)
    (x : τ) : NbtListObject τ :=
  { _nbt := pyInsert o._nbt idx x, _list := pyInsert o._list idx x }

/-- `NbtListObject.__delitem__` for an integer index: `del self._list[idx]`
runs first (raising `IndexError` for an out-of-range index and leaving both
lists untouched), then `del self._nbt[idx]` (which, were `_nbt` shorter,
would raise after `_list` was already shortened). -/
def NbtListObject.delItem {τ : Type} (o : NbtListObject τ) (idx : Nat) :
    NbtListObject τ :=
  if idx < o._list.length then
    let l' := o._list.take idx ++ o._list.drop (idx + 1)
    if idx < o._nbt.length then
      { _list := l', _nbt := o._nbt.take idx ++ o._nbt.drop (idx + 1) }
    else
      { _list := l', _nbt := o._nbt }
  else o

/-- One List View mutation: an insertion or a deletion. -/
inductive ListOp (τ : Type) where
  | ins (idx : Nat) (x : τ)
  | del (idx : Nat)

/-- Apply one mutation to a List View. -/
def applyListOp {τ : Type} (o : NbtListObject τ) : ListOp τ → NbtListObject τ
  | .ins i x => o.insertAt i x
  | .del i => o.delItem i

/-- Apply a sequence of insertions and deletions. -/
def applyListOps {τ : Type} (o : NbtListObject τ) (ops : List (ListOp τ)) :
    NbtListObject τ :=
  ops.foldl applyListOp o

/-! ### The store model for `clone` (deep copy versus aliasing)

`NbtBase.clone` returns `self.__class__(copy.deepcopy(self._nbt))`.  Its
point is aliasing: the clone must own fresh scalar storage.  The model keeps
the mutable scalar leaves of the wrapped subtree in a store of cells; a view
records the cells it exposes (named for a Compound View, positional for a
List View).  `deepcopy` copies every leaf into a freshly allocated cell. -/

/-- The scalar cells backing all live NBT tags. -/
abbrev Store := List Int

/-- Read one scalar cell. -/
def storeGet (σ : Store) (r : Nat) : Int :=
  σ.getD r 0

/-- Write one scalar cell (`tag.value = v`). -/
def storeSet (σ : Store) (r : Nat) (v : Int) : Store :=
  σ.set r v

/-- A Compound View over scalar children: child name to cell. -/
structure NbtCompoundRef where
  fields : List (String × Nat)
deriving DecidableEq

/-- A List View over scalar elements: cells in order. -/
structure NbtListRef where
  cells : List Nat
deriving DecidableEq

/-- `copy.deepcopy` on the scalar leaves: copy each cell's value into a new
cell appended to the store, returning the fresh cells in order. -/
def copyCells (σ : Store) : List Nat → List Nat × Store
  | [] => ([], σ)
  | r :: rest =>
      let fresh := σ.length
      let σ1 := σ ++ [storeGet σ r]
      let p := copyCells σ1 rest
      (fresh :: p.1, p.2)

/-- The cells a Compound View exposes. -/
def NbtCompoundRef.refs (o : NbtCompoundRef) : List Nat :=
  o.fields.map Prod.snd

/-- `NbtBase.clone` for a Compound View: same child names, deep-copied
cells. -/
def NbtCompoundRef.clone (σ : Store) (o : NbtCompoundRef) :
    NbtCompoundRef × Store :=
  let p := copyCells σ o.refs
  (⟨(o.fields.map Prod.fst).zip p.1⟩, p.2)

/-- `NbtBase.clone` for a List View: deep-copied cells in order. -/
def NbtListRef.clone (σ : Store) (o : NbtListRef) : NbtListRef × Store :=
  let p := copyCells σ o.cells
  (⟨p.1⟩, p.2)

/-- The scalar values a Compound View reads, child by child. -/
def NbtCompoundRef.readAll (σ : Store) (o : NbtCompoundRef) : List Int :=
  o.refs.map (storeGet σ)

/-- The scalar values a List View reads, element by element. -/
def NbtListRef.readAll (σ : Store) (o : NbtListRef) : List Int :=
  o.cells.map (storeGet σ)

/-! ### The item-type catalog interface and the unknown-type fallback -/

/-- `ItemTypes.items` and `ItemTypes._items_by_numid`: the two catalog
dictionaries, keyed by `(strid, meta)` and `(numid, meta)`. -/
structure Catalog where
  items : List ((String × Option Int) × ItemType)
  items_by_numid : List ((Int × Option Int) × ItemType)

/-- `ItemTypes._armor_slots`, numeric part: ids 298..317 mapped cyclically
onto `ArmorSlot.HEAD - (i % 4)`, i.e. 103, 102, 101, 100. -/
def armorSlotsNum : List (Int × Int) :=
  (List.range 20).map (fun i => (298 + Int.ofNat i, 103 - Int.ofNat (i % 4)))

/-- `ItemTypes._armor_slots`, string part: gear-name suffixes. -/
def armorSlotsStr : List (String × Int) :=
  [("helmet", 103), ("chestplate", 102), ("leggings", 101), ("boots", 100)]

/-- `re.sub(r'\W', '_', name).lower()`: non-word characters to underscores,
then lower case. -/
def sanitizeStrid (s : String) : String :=
  ⟨s.data.map (fun ch => if ch.isAlphanum || ch = '_' then ch.toLower else '_')⟩

/-- `ItemTypes.add_item`, restricted to its effect on the item object being
registered: derive a string id from the name when missing, give it the
call's namespace when unprefixed, and stamp `item.armorslot` from the armor
table (by numeric id, else by string-id suffix).  A missing numeric id is
allocated as one less than the catalog minimum, hence below every armor id,
so it never selects an armor slot.  The duplicate-id bookkeeping touches
only the catalog dictionaries, not the fields read by the theorems. -/
def registerItemType (t : ItemType) (ns : String) : ItemType :=
  let strid0 := match t.strid with
    | some s => s
    | none => sanitizeStrid t.name
  let strid1 := if strid0.contains ':' then strid0 else ns ++ ":" ++ strid0
  let numArmor := match t.numid with
    | some n => armorSlotsNum.lookup n
    | none => none
  { t with armorslot :=
      match numArmor with
      | some s => some s
      | none => armorSlotsStr.lookup ((strid1.splitOn "_").getLastD strid1) }

/-- `str.split(':', 1)[-1]`: everything after the first colon, or the whole
string when there is none. -/
def afterColon (s : String) : String :=
  match s.splitOn ":" with
  | [] => s
  | [x] => x
  | _ :: rest => String.intercalate ":" rest

/-- Python `str.title()`: upper-case every alphabetic character that follows
a non-alphabetic one, lower-case the rest. -/
def pyTitleAux : List Char → Bool → List Char
  | [], _ => []
  | c :: rest, prevAlpha =>
      (if c.isAlpha then (if prevAlpha then c.toLower else c.toUpper) else c)
        :: pyTitleAux rest c.isAlpha

/-- Python `str.title()`. -/
def pyTitle (s : String) : String :=
  ⟨pyTitleAux s.data false⟩

/-- The constructor arguments `ItemType.from_item` assembles for the
synthesized type: name derived from the raw identifier, durability 0, stack
size equal to the item's observed count. -/
def from_item_args (iid : ItemId) (damage : Int) (count : Int) : ItemType :=
  match iid with
  | .num n =>
      { numid := some n, strid := none, meta := some damage,
        name := "Unknown Item " ++ toString n, obtainable := true,
        is_block := decide (n ≤ 255), maxdamage := 0, stacksize := count,
        armorslot := none, texture := none, removed := false,
        ns := "minecraft" }
  | .str s =>
      { numid := none, strid := some s, meta := some damage,
        name := pyTitle ((afterColon s).replace "_" " "),
        obtainable := true, is_block := false, maxdamage := 0,
        stacksize := count, armorslot := none, texture := none,
        removed := false, ns := "minecraft" }

/-- `ItemType.from_item`: synthesize a type for an item the catalog does not
know.  The synthesized object still runs the `ItemType.__init__` integrity
checks (so an `AssertionError` there propagates) and is then registered
under the `unknown` namespace. -/
def ItemType.from_item (iid : ItemId) (damage : Int) (count : Int) :
    Except PyErr ItemType :=
  match mkItemType (from_item_args iid damage count) with
  | .ok t' => .ok (registerItemType t' "unknown")
  | .error e => .error e

/-- `ItemTypes.findItem`: numeric ids go through `_items_by_numid`, string
ids get the default namespace when unprefixed and go through `items`; in
both dictionaries a missing `(id, meta)` key retries with `meta = None`,
and a miss after the retry raises `KeyError`. -/
def findItem (cat : Catalog) (key : ItemId) (meta : Option Int) (ns : String) :
    Except PyErr ItemType :=
  match key with
  | .num n =>
      let m := if (cat.items_by_numid.lookup (n, meta)).isSome then meta
               else none
      match cat.items_by_numid.lookup (n, m) with
      | some t => .ok t
      | none => .error .keyError
  | .str s =>
      let itemid := if s.contains ':' then s else ns ++ ":" ++ s
      let m := if (cat.items.lookup (itemid, meta)).isSome then meta else none
      match cat.items.lookup (itemid, m) with
      | some t => .ok t
      | none => .error .keyError

/-- `BaseItem.__init__`, type-resolution step: `ItemTypes.findItem(*self.key)`
with the `KeyError` recovered through `ItemType.from_item`; any error from
the fallback itself propagates to the caller. -/
def resolveItemType (cat : Catalog) (iid : ItemId) (damage : Int)
    (count : Int) : Except PyErr ItemType :=
  match findItem cat iid (some damage) "minecraft" with
  | .ok t => .ok t
  | .error _ => ItemType.from_item iid damage count

/-- The name `ItemType.from_item` derives from a raw identifier: either
`Unknown Item <numid>`, or the string id past its namespace, underscores
replaced by spaces and title-cased. -/
def derivedTypeName (iid : ItemId) : String :=
  match iid with
  | .num n => "Unknown Item " ++ toString n
  | .str s => pyTitle ((afterColon s).replace "_" " ")

/-! ### Compound View child lookup -/

/-- Python `str.lower()` on the character list (ASCII case folding, as the
identifiers in the wrapped data use). -/
def pyLower (s : String) : String :=
  ⟨s.data.map Char.toLower⟩

/-- `NbtObject.__getattr__`: objectify the exact-named child; on `KeyError`,
scan the child names case-insensitively and return the first match; raise
(`AttributeError`, the view's not-found failure) when neither succeeds. -/
def getattrC {α : Type} (children : List (String × α)) (attr : String) :
    Except Unit α :=
  match children.find? (fun c => c.1 == attr) with
  | some c => .ok c.2
  | none =>
      let lowername := pyLower attr
      match children.find? (fun c => pyLower c.1 == lowername) with
      | some c => .ok c.2
      | none => .error ()

/-! ### Helper lemmas -/

/-- `add_item` raises only before touching any state: on `MCError` the
returned inventory is the argument. -/
theorem add_item_error_eq (inv : PlayerInventory) (item : Item)
    (w c : Bool) (inv' : PlayerInventory) (e : PyErr)
    (h : inv.add_item item w c = (inv', .error e)) : inv' = inv := by
  unfold PlayerInventory.add_item at h
  by_cases h0 : inv.free_slots.isEmpty && inv.free_armor.isEmpty
  · rw [if_pos h0] at h
    simp only [Prod.mk.injEq] at h
    exact h.1.symm
  · rw [if_neg h0] at h
    cases hc : armorChoice inv item w with
    | some s => rw [hc] at h; simp at h
    | none =>
        rw [hc] at h
        cases hf : inv.free_slots with
        | nil =>
            rw [hf] at h
            simp only [Prod.mk.injEq] at h
            exact h.1.symm
        | cons a l => rw [hf] at h; simp at h

/-- The merge loop is conserving: the remaining count plus the recorded
transfer amounts equal the count it started with. -/
theorem stackScan_sum (k : ItemId × Int) (nm : String) (sz : Int)
    (l : List Item) (c : Int) :
    (stackScan k nm sz l c).2.1 +
      (((stackScan k nm sz l c).2.2).map Prod.snd).sum = c := by
  induction l generalizing c with
  | nil => simp [stackScan]
  | cons hd tl ih =>
      rw [stackScan]
      by_cases hm : hd.key = k ∧ hd.name = nm ∧ hd.count < sz
      · rw [if_pos hm]
        by_cases h0 : c - (min sz (hd.count + c) - hd.count) = 0
        · simp only [if_pos h0]
          simp only [List.map_cons, List.map_nil, List.sum_cons, List.sum_nil]
          omega
        · simp only [if_neg h0]
          have := ih (c - (min sz (hd.count + c) - hd.count))
          simp only [List.map_cons, List.sum_cons] at this ⊢
          omega
      · rw [if_neg hm]
        simpa using ih c

/-! ### Concrete sample data for the concrete-input theorems -/

/-- A stackable sample type (arrows: stack size 64). -/
def sampleArrowType : ItemType :=
  { numid := some 262, strid := some "minecraft:arrow", meta := some 0,
    name := "Arrow", obtainable := true, is_block := false, maxdamage := 0,
    stacksize := 64, armorslot := none, texture := none, removed := false,
    ns := "minecraft" }

/-- A non-stackable sample type (a sword: durability, stack size 1). -/
def sampleSwordType : ItemType :=
  { numid := some 276, strid := some "minecraft:diamond_sword",
    meta := some 0, name := "Diamond Sword", obtainable := true,
    is_block := false, maxdamage := 1561, stacksize := 1, armorslot := none,
    texture := none, removed := false, ns := "minecraft" }

/-- An armor sample type (boots: designated armor slot 100). -/
def sampleBootsType : ItemType :=
  { numid := some 301, strid := some "minecraft:leather_boots",
    meta := some 0, name := "Leather Boots", obtainable := true,
    is_block := false, maxdamage := 65, stacksize := 1,
    armorslot := some 100, texture := none, removed := false,
    ns := "minecraft" }

/-- A concrete arrow item with the given count and slot. -/
def sampleArrows (c : Int) (s : Option Int) : Item :=
  { id := .str "minecraft:arrow", damage := 0, count := c, slot := s,
    customname := none, itype := sampleArrowType }

/-- A concrete sword item. -/
def sampleSword (s : Option Int) : Item :=
  { id := .str "minecraft:diamond_sword", damage := 0, count := 1, slot := s,
    customname := none, itype := sampleSwordType }

/-- A concrete pair of boots. -/
def sampleBoots (s : Option Int) : Item :=
  { id := .str "minecraft:leather_boots", damage := 0, count := 1, slot := s,
    customname := none, itype := sampleBootsType }

/-! ### C4: precondition failure has no side effects -/

/-- C4: `stack_item` fails with the precondition error (`ValueError`)
whenever the supplied count is zero or greater than the type's stack limit,
and performs no side effects: the inventory comes back exactly as it was,
elements, counts and free-slot sets included. -/
theorem stack_item_precondition_no_side_effects (inv : PlayerInventory)
    (item0 : Item) (w : Bool)
    (h : item0.count = 0 ∨ item0.itype.stacksize < item0.count) :
    inv.stack_item item0 w = (inv, .error .valueError) := by
  unfold PlayerInventory.stack_item
  simp only [Item.clone]
  rcases h with h | h
  · rw [if_pos h]
  · by_cases h0 : item0.count = 0
    · rw [if_pos h0]
    · rw [if_neg h0, if_pos h]

/-- Concrete run of `stack_item_precondition_no_side_effects`: a zero-count
arrow item leaves a one-stack inventory untouched. -/
theorem stack_item_precondition_no_side_effects_witness :
    (PlayerInventory.ofNbt [sampleArrows 40 (some 5)]).stack_item
        (sampleArrows 0 none) true
      = (PlayerInventory.ofNbt [sampleArrows 40 (some 5)],
         .error .valueError) :=
  stack_item_precondition_no_side_effects
    (PlayerInventory.ofNbt [sampleArrows 40 (some 5)]) (sampleArrows 0 none)
    true (Or.inl (by decide))

/-! ### C1: stacking conservation -/

/-- The conservation check on a `stack_item` result: it succeeded and the
starting count equals the remainder plus all recorded transfer amounts. -/
def stackConserves (c : Int) : Except PyErr (Int × List (Int × Int)) → Bool
  | .ok (r, ds) => c == r + (ds.map Prod.snd).sum
  | .error _ => false

/-- C1: for every inventory state and every item whose count is positive and
at most its type's stack limit, `stack_item` returns `(remaining, deltas)`
with `count = remaining + sum of delta amounts`, whether or not the final
placement attempt succeeds. -/
theorem stack_item_conservation (inv : PlayerInventory) (item0 : Item)
    (w : Bool) (h1 : 0 < item0.count)
    (h2 : item0.count ≤ item0.itype.stacksize) :
    stackConserves item0.count (inv.stack_item item0 w).2 = true := by
  unfold PlayerInventory.stack_item
  simp only [Item.clone]
  rw [if_neg (show ¬item0.count = 0 by omega),
      if_neg (show ¬item0.itype.stacksize < item0.count by omega)]
  by_cases hs : item0.itype.stacksize = 1
  · rw [if_pos hs]
    rcases hadd : inv.add_item item0 w true with ⟨inv', res⟩
    cases res with
    | ok s =>
        have hc1 : item0.count = 1 := by omega
        simp [stackConserves, hc1]
    | error e =>
        simp [stackConserves]
  · rw [if_neg hs]
    have hsum := stackScan_sum item0.key item0.name item0.itype.stacksize
      inv.items item0.count
    by_cases hc : 0 < (stackScan item0.key item0.name item0.itype.stacksize
        inv.items item0.count).2.1
    · rw [if_pos hc]
      rcases hadd : PlayerInventory.add_item
          { inv with items := (stackScan item0.key item0.name
              item0.itype.stacksize inv.items item0.count).1 }
          { item0 with count := (stackScan item0.key item0.name
              item0.itype.stacksize inv.items item0.count).2.1 }
          w false with ⟨inv2, res⟩
      cases res with
      | ok s =>
          simp only [stackConserves, List.map_append, List.sum_append,
            List.map_cons, List.map_nil, List.sum_cons, List.sum_nil]
          simp only [beq_iff_eq]
          omega
      | error e =>
          simp only [stackConserves, beq_iff_eq]
          omega
    · rw [if_neg hc]
      simp only [stackConserves, beq_iff_eq]
      omega

/-- Concrete run of `stack_item_conservation`: the spec's arrows scenario,
40 arrows at slot 5, 30 more stacked in. -/
theorem stack_item_conservation_witness :
    stackConserves (sampleArrows 30 none).count
      ((PlayerInventory.ofNbt [sampleArrows 40 (some 5)]).stack_item
        (sampleArrows 30 none) true).2 = true :=
  stack_item_conservation (PlayerInventory.ofNbt [sampleArrows 40 (some 5)])
    (sampleArrows 30 none) true (by decide) (by decide)

/-! ### C5: non-stackable items are a single `add_item` attempt -/

/-- C5: for a stack-limit-1 item with a valid count, `stack_item` is exactly
one `add_item` attempt: on success it returns that attempt's updated
inventory with `(0, [(slot, 1)])`; on `MCError` it returns the untouched
original inventory with `(count, [])`. -/
theorem stack_item_nonstackable_single_attempt (inv : PlayerInventory)
    (item0 : Item) (w : Bool) (hsize : item0.itype.stacksize = 1)
    (h1 : 0 < item0.count) (h2 : item0.count ≤ item0.itype.stacksize) :
    inv.stack_item item0 w =
      (match inv.add_item item0.clone w true with
       | (inv', .ok s) => (inv', .ok ((0 : Int), [(s, (1 : Int))]))
       | (_, .error _) =>
           (inv, .ok (item0.count, ([] : List (Int × Int))))) := by
  unfold PlayerInventory.stack_item
  simp only [Item.clone]
  rw [if_neg (show ¬item0.count = 0 by omega),
      if_neg (show ¬item0.itype.stacksize < item0.count by omega),
      if_pos hsize]
  rcases hadd : inv.add_item item0 w true with ⟨inv', res⟩
  cases res with
  | ok s => rfl
  | error e =>
      rw [add_item_error_eq inv item0 w true inv' e hadd]

/-- Concrete run of `stack_item_nonstackable_single_attempt`: a sword added
to a completely full inventory comes back as `(1, [])` with nothing
changed. -/
theorem stack_item_nonstackable_single_attempt_witness :
    (PlayerInventory.mk [] [] []).stack_item (sampleSword none) true =
      (match (PlayerInventory.mk [] [] []).add_item
          (sampleSword none).clone true true with
       | (inv', .ok s) => (inv', .ok ((0 : Int), [(s, (1 : Int))]))
       | (_, .error _) =>
           (PlayerInventory.mk [] [] [],
            .ok ((sampleSword none).count, ([] : List (Int × Int))))) :=
  stack_item_nonstackable_single_attempt (PlayerInventory.mk [] [] [])
    (sampleSword none) true (by decide) (by decide) (by decide)

/-! ### C3: the stack cap -/

/-- A chosen armor slot is the item's designated armor slot and is free. -/
theorem armorChoice_some (inv : PlayerInventory) (item : Item) (w : Bool)
    (a : Int) (hc : armorChoice inv item w = some a) :
    a ∈ inv.free_armor ∧ item.itype.armorslot = some a := by
  unfold armorChoice at hc
  by_cases hw : w && item.itype.is_armor
  · cases ha : item.itype.armorslot with
    | some b =>
        by_cases hm : b ∈ inv.free_armor
        · simp only [hw, ha, if_true, hm] at hc
          cases hc
          exact ⟨hm, rfl⟩
        · simp only [hw, ha, if_true, hm] at hc
          simp at hc
    | none =>
        simp only [hw, ha, if_true] at hc
        simp at hc
  · simp only [hw] at hc
    simp at hc

/-- On success `add_item` appends the (cloned) item stamped with the chosen
slot, and that slot came off one of the two free lists: either it was the
free armor slot that got erased, or it was the head of the free main-slot
list. -/
theorem add_item_ok_char (inv : PlayerInventory) (item : Item) (w c : Bool)
    (inv' : PlayerInventory) (s : Int)
    (h : inv.add_item item w c = (inv', .ok s)) :
    inv'.items = inv.items ++ [item.set_slot s] ∧
    ((s ∈ inv.free_armor ∧ inv'.free_slots = inv.free_slots ∧
        inv'.free_armor = inv.free_armor.erase s) ∨
     (inv.free_slots = s :: inv'.free_slots ∧
        inv'.free_armor = inv.free_armor)) := by
  unfold PlayerInventory.add_item at h
  by_cases h0 : inv.free_slots.isEmpty && inv.free_armor.isEmpty
  · rw [if_pos h0] at h; simp at h
  · rw [if_neg h0] at h
    cases hc : armorChoice inv item w with
    | some a =>
        rw [hc] at h
        have hmem : a ∈ inv.free_armor := (armorChoice_some inv item w a hc).1
        simp only [Prod.mk.injEq, Except.ok.injEq] at h
        obtain ⟨hinv, hs⟩ := h
        subst hs
        rw [← hinv]
        cases c <;> simp [Item.clone, hmem]
    | none =>
        rw [hc] at h
        cases hf : inv.free_slots with
        | nil => rw [hf] at h; simp at h
        | cons a rest =>
            rw [hf] at h
            simp only [Prod.mk.injEq, Except.ok.injEq] at h
            obtain ⟨hinv, hs⟩ := h
            subst hs
            rw [← hinv]
            cases c <;> simp [Item.clone, hf]

/-- The merge loop never turns the remaining count into more than the larger
of the starting count and zero. -/
theorem stackScan_remaining_le (k : ItemId × Int) (nm : String) (sz : Int)
    (l : List Item) (c : Int) :
    (stackScan k nm sz l c).2.1 ≤ max c 0 := by
  induction l generalizing c with
  | nil => exact le_max_left c 0
  | cons hd tl ih =>
      rw [stackScan]
      by_cases hm : hd.key = k ∧ hd.name = nm ∧ hd.count < sz
      · rw [if_pos hm]
        by_cases h0 : c - (min sz (hd.count + c) - hd.count) = 0
        · simp only [if_pos h0]
          omega
        · simp only [if_neg h0]
          have := ih (c - (min sz (hd.count + c) - hd.count))
          have hlt := hm.2.2
          omega
      · rw [if_neg hm]
        exact ih c

/-- The merge loop respects each stack's own cap: when every stack starts at
or below its own stack size and stacks matching the scanned key share the
scan's stack size, every stack ends at or below its own stack size. -/
theorem stackScan_cap (k : ItemId × Int) (nm : String) (sz : Int)
    (l : List Item) (c : Int)
    (hall : ∀ x ∈ l, x.count ≤ x.itype.stacksize)
    (hcoh : ∀ x ∈ l, x.key = k → x.itype.stacksize = sz) :
    ∀ x ∈ (stackScan k nm sz l c).1, x.count ≤ x.itype.stacksize := by
  induction l generalizing c with
  | nil => simp [stackScan]
  | cons hd tl ih =>
      have hhd : hd.count ≤ hd.itype.stacksize := hall hd (by simp)
      have hallt : ∀ x ∈ tl, x.count ≤ x.itype.stacksize :=
        fun x hx => hall x (List.mem_cons_of_mem _ hx)
      have hcoht : ∀ x ∈ tl, x.key = k → x.itype.stacksize = sz :=
        fun x hx => hcoh x (List.mem_cons_of_mem _ hx)
      rw [stackScan]
      by_cases hm : hd.key = k ∧ hd.name = nm ∧ hd.count < sz
      · rw [if_pos hm]
        have hsz : hd.itype.stacksize = sz := hcoh hd (by simp) hm.1
        have hcap : hd.count + (min sz (hd.count + c) - hd.count) ≤
            hd.itype.stacksize := by rw [hsz]; omega
        by_cases h0 : c - (min sz (hd.count + c) - hd.count) = 0
        · simp only [if_pos h0]
          intro x hx
          rcases List.mem_cons.mp hx with rfl | hx
          · exact hcap
          · exact hallt x hx
        · simp only [if_neg h0]
          intro x hx
          rcases List.mem_cons.mp hx with rfl | hx
          · exact hcap
          · exact ih (c - (min sz (hd.count + c) - hd.count)) hallt hcoht x hx
      · rw [if_neg hm]
        intro x hx
        rcases List.mem_cons.mp hx with rfl | hx
        · exact hhd
        · exact ih c hallt hcoht x hx

/-- C3: after any `stack_item` call on an inventory whose stacks are within
their own types' stack limits (with catalog-coherent types: equal keys give
equal stack sizes), every stack is still within its type's stack limit. -/
theorem stack_item_stack_cap (inv : PlayerInventory) (item0 : Item) (w : Bool)
    (hall : ∀ x ∈ inv.items, x.count ≤ x.itype.stacksize)
    (hcoh : ∀ x ∈ inv.items, x.key = item0.key →
      x.itype.stacksize = item0.itype.stacksize) :
    ((inv.stack_item item0 w).1.items.all
      (fun x => decide (x.count ≤ x.itype.stacksize))) = true := by
  simp only [List.all_eq_true, decide_eq_true_eq]
  unfold PlayerInventory.stack_item
  simp only [Item.clone]
  by_cases hz : item0.count = 0
  · rw [if_pos hz]; exact hall
  · rw [if_neg hz]
    by_cases hgt : item0.itype.stacksize < item0.count
    · rw [if_pos hgt]; exact hall
    · rw [if_neg hgt]
      by_cases hs : item0.itype.stacksize = 1
      · rw [if_pos hs]
        rcases hadd : inv.add_item item0 w true with ⟨inv', res⟩
        cases res with
        | ok s =>
            intro x hx
            rw [(add_item_ok_char inv item0 w true inv' s hadd).1] at hx
            rcases List.mem_append.mp hx with hx | hx
            · exact hall x hx
            · rcases List.mem_singleton.mp hx with rfl
              simpa [Item.set_slot] using by omega
        | error e =>
            rw [add_item_error_eq inv item0 w true inv' e hadd]
            exact hall
      · rw [if_neg hs]
        have hscan := stackScan_cap item0.key item0.name item0.itype.stacksize
          inv.items item0.count hall hcoh
        have hrem := stackScan_remaining_le item0.key item0.name
          item0.itype.stacksize inv.items item0.count
        by_cases hc : 0 < (stackScan item0.key item0.name
            item0.itype.stacksize inv.items item0.count).2.1
        · rw [if_pos hc]
          rcases hadd : PlayerInventory.add_item
              { inv with items := (stackScan item0.key item0.name
                  item0.itype.stacksize inv.items item0.count).1 }
              { item0 with count := (stackScan item0.key item0.name
                  item0.itype.stacksize inv.items item0.count).2.1 }
              w false with ⟨inv2, res⟩
          cases res with
          | ok s =>
              intro x hx
              rw [(add_item_ok_char _ _ w false inv2 s hadd).1] at hx
              rcases List.mem_append.mp hx with hx | hx
              · exact hscan x hx
              · rcases List.mem_singleton.mp hx with rfl
                simpa [Item.set_slot] using by omega
          | error e =>
              rw [add_item_error_eq _ _ w false inv2 e hadd]
              exact hscan
        · rw [if_neg hc]
          exact hscan

/-- Concrete run of `stack_item_stack_cap`: the arrows scenario again; the
slot-5 stack ends exactly at the 64 cap. -/
theorem stack_item_stack_cap_witness :
    (((PlayerInventory.ofNbt [sampleArrows 40 (some 5)]).stack_item
        (sampleArrows 30 none) true).1.items.all
      (fun x => decide (x.count ≤ x.itype.stacksize))) = true :=
  stack_item_stack_cap (PlayerInventory.ofNbt [sampleArrows 40 (some 5)])
    (sampleArrows 30 none) true (by decide) (by decide)

/-! ### C6: armor preference and lowest-main-slot selection -/

/-- C6: when the armor-preference step selects a slot, `add_item` returns the
item's designated armor slot (an armor address, not a main slot), erases it
from the free-armor set and appends the stamped item; when it selects none,
`add_item` fails with `MCError` if no free main slot remains and otherwise
pops the lowest-numbered free main slot (the head of the ascending free
list). -/
theorem add_item_armor_preference (inv : PlayerInventory) (item : Item)
    (w c : Bool) (hsorted : inv.free_slots.Pairwise (· ≤ ·))
    (harmor : inv.free_armor.all (fun x => decide (100 ≤ x ∧ x ≤ 103)) = true) :
    match armorChoice inv item w with
    | some s =>
        inv.add_item item w c =
          ({ items := inv.items ++ [item.set_slot s],
             free_slots := inv.free_slots,
             free_armor := inv.free_armor.erase s }, .ok s)
        ∧ item.itype.armorslot = some s ∧ s ∈ inv.free_armor
        ∧ ¬(0 ≤ s ∧ s < 36)
    | none =>
        match inv.free_slots with
        | [] => inv.add_item item w c = (inv, .error .mcError)
        | s :: rest =>
            inv.add_item item w c =
              ({ items := inv.items ++ [item.set_slot s],
                 free_slots := rest,
                 free_armor := inv.free_armor }, .ok s)
            ∧ rest.all (fun x => decide (s ≤ x)) = true := by
  cases hc : armorChoice inv item w with
  | some s =>
      obtain ⟨hmem, hdes⟩ := armorChoice_some inv item w s hc
      have hrange : 100 ≤ s ∧ s ≤ 103 :=
        of_decide_eq_true (List.all_eq_true.mp harmor s hmem)
      have hne : ¬(inv.free_slots.isEmpty && inv.free_armor.isEmpty) = true := by
        intro hcon
        rw [Bool.and_eq_true, List.isEmpty_iff, List.isEmpty_iff] at hcon
        rw [hcon.2] at hmem
        simp at hmem
      refine ⟨?_, hdes, hmem, by omega⟩
      unfold PlayerInventory.add_item
      rw [if_neg hne, hc]
      cases c <;> simp [Item.clone]
  | none =>
      cases hf : inv.free_slots with
      | nil =>
          unfold PlayerInventory.add_item
          by_cases hz : (inv.free_slots.isEmpty && inv.free_armor.isEmpty) = true
          · rw [if_pos hz]
          · rw [if_neg hz, hc, hf]
      | cons s rest =>
          have hne : ¬(inv.free_slots.isEmpty && inv.free_armor.isEmpty) = true := by
            rw [hf]
            simp
          constructor
          · unfold PlayerInventory.add_item
            rw [if_neg hne, hc, hf]
            cases c <;> simp [Item.clone]
          · rw [hf] at hsorted
            have hall := (List.pairwise_cons.mp hsorted).1
            simp only [List.all_eq_true, decide_eq_true_eq]
            exact hall

/-- Concrete run of `add_item_armor_preference`: boots added to an empty
inventory with `wear_armor` go to armor slot 100. -/
theorem add_item_armor_preference_witness :
    match armorChoice (PlayerInventory.ofNbt []) (sampleBoots none) true with
    | some s =>
        (PlayerInventory.ofNbt []).add_item (sampleBoots none) true true =
          ({ items := (PlayerInventory.ofNbt []).items
                ++ [(sampleBoots none).set_slot s],
             free_slots := (PlayerInventory.ofNbt []).free_slots,
             free_armor := (PlayerInventory.ofNbt []).free_armor.erase s },
           .ok s)
        ∧ (sampleBoots none).itype.armorslot = some s
        ∧ s ∈ (PlayerInventory.ofNbt []).free_armor
        ∧ ¬(0 ≤ s ∧ s < 36)
    | none =>
        match (PlayerInventory.ofNbt []).free_slots with
        | [] =>
            (PlayerInventory.ofNbt []).add_item (sampleBoots none) true true =
              (PlayerInventory.ofNbt [], .error .mcError)
        | s :: rest =>
            (PlayerInventory.ofNbt []).add_item (sampleBoots none) true true =
              ({ items := (PlayerInventory.ofNbt []).items
                    ++ [(sampleBoots none).set_slot s],
                 free_slots := rest,
                 free_armor := (PlayerInventory.ofNbt []).free_armor }, .ok s)
            ∧ rest.all (fun x => decide (s ≤ x)) = true :=
  add_item_armor_preference (PlayerInventory.ofNbt []) (sampleBoots none)
    true true (by decide) (by decide)

/-! ### C7: List View cache parity -/

/-- Python `list.insert` grows the list by exactly one element. -/
theorem pyInsert_length {τ : Type} (l : List τ) (idx : Nat) (x : τ) :
    (pyInsert l idx x).length = l.length + 1 := by
  simp [pyInsert]
  omega

/-- One insertion or deletion keeps the cache and the underlying list the
same length. -/
theorem applyListOp_parity {τ : Type} (o : NbtListObject τ) (op : ListOp τ)
    (h : o._list.length = o._nbt.length) :
    (applyListOp o op)._list.length = (applyListOp o op)._nbt.length := by
  cases op with
  | ins i x =>
      simp [applyListOp, NbtListObject.insertAt, pyInsert_length, h]
  | del i =>
      simp only [applyListOp, NbtListObject.delItem]
      by_cases hi : i < o._list.length
      · rw [if_pos hi]
        have hi' : i < o._nbt.length := h ▸ hi
        rw [if_pos hi']
        simp [List.length_append, List.length_take, List.length_drop]
        omega
      · rw [if_neg hi]
        exact h

/-- C7: after any sequence of insertions and deletions on a List View, the
cache of objectified elements and the underlying NBT list have the same
length. -/
theorem nbt_list_cache_parity {τ : Type} (nbt : List τ)
    (ops : List (ListOp τ)) :
    (applyListOps (NbtListObject.ofNbt nbt) ops)._list.length =
      (applyListOps (NbtListObject.ofNbt nbt) ops)._nbt.length := by
  have hgen : ∀ (o : NbtListObject τ), o._list.length = o._nbt.length →
      (applyListOps o ops)._list.length = (applyListOps o ops)._nbt.length := by
    induction ops with
    | nil => intro o h; exact h
    | cons op rest ih =>
        intro o h
        exact ih (applyListOp o op) (applyListOp_parity o op h)
  exact hgen (NbtListObject.ofNbt nbt) (by simp [NbtListObject.ofNbt])

/-! ### C8: `clone` deep-copies and decouples the views -/

/-- Reading below the old length is unaffected by appending a cell. -/
theorem storeGet_append_lt (σ : Store) (w : Int) (q : Nat)
    (h : q < σ.length) : storeGet (σ ++ [w]) q = storeGet σ q :=
  List.getD_append σ [w] 0 q h

/-- Reading the appended cell gives the appended value. -/
theorem storeGet_append_self (σ : Store) (w : Int) :
    storeGet (σ ++ [w]) σ.length = w := by
  unfold storeGet
  rw [List.getD_append_right σ [w] 0 σ.length (le_refl _)]
  simp

/-- Writing one cell leaves every other cell unchanged. -/
theorem storeGet_set_ne (σ : Store) (r q : Nat) (v : Int) (h : q ≠ r) :
    storeGet (storeSet σ r v) q = storeGet σ q := by
  simp only [storeGet, storeSet, List.getD_eq_getD_get?, List.get?_eq_getElem?]
  rw [List.getElem?_set_ne (Ne.symm h)]

/-- What `copy.deepcopy` does to the scalar cells: as many fresh cells as
sources, all at or past the old store length, the old cells unchanged, and
the fresh cells carrying the source cells' values. -/
theorem copyCells_spec (rs : List Nat) :
    ∀ (σ : Store), (∀ r ∈ rs, r < σ.length) →
    (copyCells σ rs).1.length = rs.length ∧
    (∀ x ∈ (copyCells σ rs).1, σ.length ≤ x) ∧
    (∀ q, q < σ.length → storeGet (copyCells σ rs).2 q = storeGet σ q) ∧
    (copyCells σ rs).1.map (storeGet (copyCells σ rs).2) =
      rs.map (storeGet σ) := by
  induction rs with
  | nil =>
      intro σ hval
      simp [copyCells]
  | cons r rest ih =>
      intro σ hval
      have hr : r < σ.length := hval r (by simp)
      have hval' : ∀ x ∈ rest, x < (σ ++ [storeGet σ r]).length := by
        intro x hx
        have := hval x (List.mem_cons_of_mem _ hx)
        simp only [List.length_append, List.length_cons, List.length_nil]
        omega
      obtain ⟨ih1, ih2, ih4, ih5⟩ := ih (σ ++ [storeGet σ r]) hval'
      have hlen1 : (σ ++ [storeGet σ r]).length = σ.length + 1 := by simp
      simp only [copyCells]
      refine ⟨by simp [ih1], ?_, ?_, ?_⟩
      · intro x hx
        rcases List.mem_cons.mp hx with rfl | hx
        · exact le_refl _
        · have := ih2 x hx
          omega
      · intro q hq
        have hq' : q < (σ ++ [storeGet σ r]).length := by omega
        rw [ih4 q hq']
        exact storeGet_append_lt σ _ q hq
      · rw [List.map_cons, List.map_cons]
        congr 1
        · rw [ih4 σ.length (by omega)]
          exact storeGet_append_self σ _
        · rw [ih5]
          apply List.map_congr_left
          intro x hx
          exact storeGet_append_lt σ _ x (hval x (List.mem_cons_of_mem _ hx))

/-- The cells of a cloned Compound View are exactly the fresh cells made by
`copyCells`. -/
theorem compound_clone_refs (σ : Store) (o : NbtCompoundRef)
    (h : ∀ x ∈ o.refs, x < σ.length) :
    (NbtCompoundRef.clone σ o).1.refs = (copyCells σ o.refs).1 := by
  simp only [NbtCompoundRef.clone, NbtCompoundRef.refs]
  apply List.map_snd_zip
  have := (copyCells_spec (o.fields.map Prod.snd) σ h).1
  simp only [NbtCompoundRef.refs] at this
  rw [this]
  simp

/-- C8: `clone` on a Compound or List View yields a view of the same kind
(same child names for a compound) over a deep copy that reads the same
scalar values, and writing any scalar cell of the clone leaves every scalar
value the original view reads unchanged. -/
theorem clone_deep_copy_independent (σ : Store) (o : NbtCompoundRef)
    (lv : NbtListRef) (r rl : Nat) (v vl : Int)
    (ho : ∀ x ∈ o.refs, x < σ.length)
    (hl : ∀ x ∈ lv.cells, x < σ.length)
    (hr : r ∈ (NbtCompoundRef.clone σ o).1.refs)
    (hrl : rl ∈ (NbtListRef.clone σ lv).1.cells) :
    (NbtCompoundRef.clone σ o).1.fields.map Prod.fst =
        o.fields.map Prod.fst ∧
    NbtCompoundRef.readAll (NbtCompoundRef.clone σ o).2
        (NbtCompoundRef.clone σ o).1 = NbtCompoundRef.readAll σ o ∧
    NbtCompoundRef.readAll (storeSet (NbtCompoundRef.clone σ o).2 r v) o =
        NbtCompoundRef.readAll σ o ∧
    NbtListRef.readAll (NbtListRef.clone σ lv).2 (NbtListRef.clone σ lv).1 =
        NbtListRef.readAll σ lv ∧
    NbtListRef.readAll (storeSet (NbtListRef.clone σ lv).2 rl vl) lv =
        NbtListRef.readAll σ lv := by
  obtain ⟨c1, c2, c3, c4⟩ := copyCells_spec o.refs σ ho
  obtain ⟨d1, d2, d3, d4⟩ := copyCells_spec lv.cells σ hl
  have hrefs : (NbtCompoundRef.clone σ o).1.refs = (copyCells σ o.refs).1 :=
    compound_clone_refs σ o ho
  have hsig : (NbtCompoundRef.clone σ o).2 = (copyCells σ o.refs).2 := by
    simp [NbtCompoundRef.clone]
  have hlref : (NbtListRef.clone σ lv).1.cells = (copyCells σ lv.cells).1 :=
    rfl
  have hlsig : (NbtListRef.clone σ lv).2 = (copyCells σ lv.cells).2 := rfl
  have hrfresh : σ.length ≤ r := by
    rw [hrefs] at hr
    exact c2 r hr
  have hrlfresh : σ.length ≤ rl := by
    rw [hlref] at hrl
    exact d2 rl hrl
  refine ⟨?_, ?_, ?_, ?_, ?_⟩
  · simp only [NbtCompoundRef.clone]
    apply List.map_fst_zip
    rw [c1]
    simp [NbtCompoundRef.refs]
  · unfold NbtCompoundRef.readAll
    rw [hrefs, hsig]
    exact c4
  · unfold NbtCompoundRef.readAll
    apply List.map_congr_left
    intro q hq
    have hqlt : q < σ.length := ho q hq
    rw [hsig, storeGet_set_ne _ r q v (by omega)]
    exact c3 q hqlt
  · unfold NbtListRef.readAll
    rw [hlref, hlsig]
    exact d4
  · unfold NbtListRef.readAll
    apply List.map_congr_left
    intro q hq
    have hqlt : q < σ.length := hl q hq
    rw [hlsig, storeGet_set_ne _ rl q vl (by omega)]
    exact d3 q hqlt

/-- Concrete run of `clone_deep_copy_independent`: a two-field compound and
a one-element list over the store `[7, 8]`; the clones live in cells 2..3
and 2, and mutating those leaves the originals' reads at `[7, 8]` and
`[8]`. -/
theorem clone_deep_copy_independent_witness :
    (NbtCompoundRef.clone [7, 8] ⟨[("a", 0), ("b", 1)]⟩).1.fields.map
        Prod.fst = (⟨[("a", 0), ("b", 1)]⟩ : NbtCompoundRef).fields.map
        Prod.fst ∧
    NbtCompoundRef.readAll (NbtCompoundRef.clone [7, 8]
        ⟨[("a", 0), ("b", 1)]⟩).2
        (NbtCompoundRef.clone [7, 8] ⟨[("a", 0), ("b", 1)]⟩).1 =
      NbtCompoundRef.readAll [7, 8] ⟨[("a", 0), ("b", 1)]⟩ ∧
    NbtCompoundRef.readAll
        (storeSet (NbtCompoundRef.clone [7, 8] ⟨[("a", 0), ("b", 1)]⟩).2 2 99)
        ⟨[("a", 0), ("b", 1)]⟩ =
      NbtCompoundRef.readAll [7, 8] ⟨[("a", 0), ("b", 1)]⟩ ∧
    NbtListRef.readAll (NbtListRef.clone [7, 8] ⟨[1]⟩).2
        (NbtListRef.clone [7, 8] ⟨[1]⟩).1 =
      NbtListRef.readAll [7, 8] ⟨[1]⟩ ∧
    NbtListRef.readAll (storeSet (NbtListRef.clone [7, 8] ⟨[1]⟩).2 2 55)
        ⟨[1]⟩ = NbtListRef.readAll [7, 8] ⟨[1]⟩ :=
  clone_deep_copy_independent [7, 8] ⟨[("a", 0), ("b", 1)]⟩ ⟨[1]⟩ 2 2 99 55
    (by decide) (by decide) (by decide) (by decide)

/-! ### C9: catalog miss and the synthesized placeholder type -/

/-- `mkItemType` succeeds exactly when the integrity checks pass. -/
theorem mkItemType_ok (t : ItemType) (h : t.checksB = true) :
    mkItemType t = .ok t := by
  unfold mkItemType
  rw [if_pos h]

/-- The type synthesized for an unknown item passes the `ItemType.__init__`
integrity checks precisely when the observed count is a legal stack size. -/
theorem from_item_args_checks (iid : ItemId) (damage count : Int)
    (hcount : count = 1 ∨ count = 16 ∨ count = 64) :
    (from_item_args iid damage count).checksB = true := by
  cases iid with
  | num n =>
      simp only [from_item_args, ItemType.checksB]
      simp only [Bool.and_eq_true]
      refine ⟨⟨⟨⟨by simp, ?_⟩, by simp⟩, by simp [hcount]⟩, by simp⟩
      have : (n ≤ 255) ↔ (n < 256) := by omega
      simp [decide_eq_decide.mpr this]
  | str s =>
      simp only [from_item_args, ItemType.checksB]
      simp only [Bool.and_eq_true]
      exact ⟨⟨⟨⟨by simp, by simp⟩, by simp⟩, by simp [hcount]⟩, by simp⟩

/-- Registration (`ItemTypes.add_item`) only stamps the armor slot: the
name, durability and stack size of the synthesized type survive it. -/
theorem registerItemType_fields (t : ItemType) (ns : String) :
    (registerItemType t ns).name = t.name ∧
    (registerItemType t ns).maxdamage = t.maxdamage ∧
    (registerItemType t ns).stacksize = t.stacksize :=
  ⟨rfl, rfl, rfl⟩

/-- C9 counterexample: the claim that Item construction always succeeds on a
catalog miss is false.  For identifier `minecraft:unknown_thing` with
observed count 3 (no catalog entry even after the wildcard retry), the
synthesized type has stack size 3, the `ItemType.__init__` assertion
`stacksize in (1, 16, 64)` fails, and the `AssertionError` propagates: type
resolution does not succeed. -/
theorem item_construction_unknown_type_cx :
    (resolveItemType ⟨[], []⟩ (.str "minecraft:unknown_thing") 0 3).isOk
      = false ∧
    resolveItemType ⟨[], []⟩ (.str "minecraft:unknown_thing") 0 3
      = .error .assertionError := by
  constructor <;> rfl

/-- C9 (amended): on a catalog miss (even after the wildcard retry), Item
construction succeeds with a synthesized placeholder — name derived from the
raw identifier, durability 0, stack limit equal to the observed count —
provided that observed count is a legal stack size (1, 16 or 64); otherwise
the synthesized type fails the `ItemType.__init__` stack-size assertion. -/
theorem item_construction_unknown_type_amended (cat : Catalog) (iid : ItemId)
    (damage count : Int)
    (hmiss : (findItem cat iid (some damage) "minecraft").isOk = false)
    (hcount : count = 1 ∨ count = 16 ∨ count = 64) :
    (resolveItemType cat iid damage count).toOption.map
        (fun t => (t.name, t.maxdamage, t.stacksize)) =
      some (derivedTypeName iid, 0, count) := by
  unfold resolveItemType
  cases hf : findItem cat iid (some damage) "minecraft" with
  | ok t =>
      rw [hf] at hmiss
      simp [Except.isOk, Except.toBool] at hmiss
  | error e =>
      unfold ItemType.from_item
      rw [mkItemType_ok _ (from_item_args_checks iid damage count hcount)]
      simp only [Except.toOption, Option.map_some']
      obtain ⟨hn, hd, hs⟩ :=
        registerItemType_fields (from_item_args iid damage count) "unknown"
      rw [hn, hd, hs]
      cases iid <;> rfl

/-- Concrete run of `item_construction_unknown_type_amended`: the unknown
identifier `minecraft:unknown_thing` with count 16 on an empty catalog gives
the placeholder `Unknown Thing` with durability 0 and stack limit 16. -/
theorem item_construction_unknown_type_amended_witness :
    Option.map (fun t => (t.name, t.maxdamage, t.stacksize))
        (Except.toOption
          (resolveItemType ⟨[], []⟩ (.str "minecraft:unknown_thing") 0 16)) =
      some (derivedTypeName (.str "minecraft:unknown_thing"), 0, 16) :=
  item_construction_unknown_type_amended ⟨[], []⟩
    (.str "minecraft:unknown_thing") 0 16 rfl (by omega)

/-! ### C10: case-insensitive Compound lookup -/

/-- C10: Compound child lookup resolves the exact name first, else the first
case-insensitive match, else fails; in particular two spellings with the
same lower-casing, neither matching exactly, resolve to the same child when
exactly one child matches case-insensitively, and a name with no match at
all fails with the not-found error. -/
theorem getattr_case_insensitive {α : Type} (children : List (String × α))
    (n1 n2 m : String)
    (h0 : pyLower n1 = pyLower n2)
    (h1 : children.find? (fun c => c.1 == n1) = none)
    (h2 : children.find? (fun c => c.1 == n2) = none)
    (h3 : (children.filter (fun c => pyLower c.1 == pyLower n1)).length = 1)
    (h4 : children.find? (fun c => c.1 == m) = none)
    (h5 : children.filter (fun c => pyLower c.1 == pyLower m) = []) :
    (getattrC children n1).isOk = true ∧
    getattrC children n1 = getattrC children n2 ∧
    getattrC children m = .error () := by
  have hpred : (fun c : String × α => pyLower c.1 == pyLower n1) =
      (fun c => pyLower c.1 == pyLower n2) := by
    funext c
    rw [h0]
  simp only [getattrC, h1, h2, h4]
  refine ⟨?_, ?_, ?_⟩
  · cases hfind : children.find? (fun c => pyLower c.1 == pyLower n1) with
    | some c => simp [Except.isOk, Except.toBool]
    | none =>
        rw [List.find?_eq_none] at hfind
        have hnil : children.filter
            (fun c => pyLower c.1 == pyLower n1) = [] :=
          List.filter_eq_nil_iff.mpr hfind
        rw [hnil] at h3
        simp at h3
  · rw [hpred]
  · cases hfind : children.find? (fun c => pyLower c.1 == pyLower m) with
    | some c =>
        have hp := List.find?_some hfind
        have hmem : c ∈ children.filter
            (fun c => pyLower c.1 == pyLower m) :=
          List.mem_filter.mpr ⟨List.mem_of_find?_eq_some hfind, hp⟩
        rw [h5] at hmem
        simp at hmem
    | none => rfl

/-- Concrete run of `getattr_case_insensitive`: the single child `Foo` is
found by both `FOO` and `foo`, while `bar` fails. -/
theorem getattr_case_insensitive_witness :
    (getattrC [("Foo", (1 : Int))] "FOO").isOk = true ∧
    getattrC [("Foo", (1 : Int))] "FOO" = getattrC [("Foo", (1 : Int))] "foo" ∧
    getattrC [("Foo", (1 : Int))] "bar" = .error () :=
  getattr_case_insensitive [("Foo", (1 : Int))] "FOO" "foo" "bar" (by decide)
    (by decide) (by decide) (by decide) (by decide) (by decide)

/-! ### C2: the slot partition invariant -/

/-- A main inventory slot address (`range(36)`). -/
def mainSlotP (s : Int) : Prop :=
  0 ≤ s ∧ s < 36

/-- An armor slot address (`range(100, 104)`). -/
def armorSlotP (s : Int) : Prop :=
  100 ≤ s ∧ s ≤ 103

instance (s : Int) : Decidable (mainSlotP s) := by
  unfold mainSlotP
  infer_instance

instance (s : Int) : Decidable (armorSlotP s) := by
  unfold armorSlotP
  infer_instance

/-- The full valid slot-address space of a player inventory. -/
def allSlots : List Int :=
  ((List.range 36).map (fun n : Nat => (n : Int))) ++ [100, 101, 102, 103]

/-- The partition invariant of `PlayerInventory`: every item has a slot, no
two items share one, every slot address involved is valid, and the occupied
slots together with the two free lists exactly cover the valid address
space with no overlap. -/
def invOk (inv : PlayerInventory) : Prop :=
  (∀ i ∈ inv.items, i.slot.isSome = true) ∧
  (occupiedSlots inv.items).Nodup ∧
  (∀ s ∈ occupiedSlots inv.items, mainSlotP s ∨ armorSlotP s) ∧
  (∀ s ∈ inv.free_slots, mainSlotP s) ∧
  (∀ s ∈ inv.free_armor, armorSlotP s) ∧
  inv.free_slots.Nodup ∧
  inv.free_armor.Nodup ∧
  (∀ s ∈ allSlots, s ∈ occupiedSlots inv.items ∨ s ∈ inv.free_slots ∨
    s ∈ inv.free_armor) ∧
  (∀ s ∈ inv.free_slots, s ∉ occupiedSlots inv.items) ∧
  (∀ s ∈ inv.free_armor, s ∉ occupiedSlots inv.items)

/-- When every item carries a slot, there are as many occupied slots as
items. -/
theorem occupiedSlots_length (items : List Item)
    (h : ∀ i ∈ items, i.slot.isSome = true) :
    (occupiedSlots items).length = items.length := by
  induction items with
  | nil => rfl
  | cons hd tl ih =>
      obtain ⟨v, hv⟩ := Option.isSome_iff_exists.mp (h hd (by simp))
      have htl := ih (fun i hi => h i (List.mem_cons_of_mem _ hi))
      simp only [occupiedSlots, List.filterMap_cons, hv] at htl ⊢
      simp [htl]

/-- Membership in the casted `range(36)` is exactly being a main slot. -/
theorem mem_mainRange (x : Int) :
    x ∈ (List.range 36).map (fun n : Nat => (n : Int)) ↔ mainSlotP x := by
  unfold mainSlotP
  simp only [List.mem_map, List.mem_range]
  constructor
  · rintro ⟨n, hn, rfl⟩
    omega
  · rintro ⟨h0, h36⟩
    exact ⟨x.toNat, by omega, by omega⟩

/-- Membership in the armor address list is exactly being an armor slot. -/
theorem mem_armorRange (x : Int) :
    x ∈ ([100, 101, 102, 103] : List Int) ↔ armorSlotP x := by
  unfold armorSlotP
  simp
  omega

/-- The valid address space is the union of main and armor addresses. -/
theorem mem_allSlots (x : Int) :
    x ∈ allSlots ↔ (mainSlotP x ∨ armorSlotP x) := by
  unfold allSlots
  rw [List.mem_append, mem_mainRange, mem_armorRange]

/-- Occupied slots of an appended single item with a stamped slot. -/
theorem occupiedSlots_append_set_slot (items : List Item) (it : Item)
    (s : Int) :
    occupiedSlots (items ++ [it.set_slot s]) = occupiedSlots items ++ [s] := by
  simp [occupiedSlots, List.filterMap_append, Item.set_slot]

/-- Equality of `add_item` outcomes is decidable (used to check the concrete
runs). -/
instance : DecidableEq (Except PyErr Int) := fun a b =>
  match a, b with
  | .ok x, .ok y =>
      if h : x = y then isTrue (by rw [h])
      else isFalse (by intro hc; cases hc; exact h rfl)
  | .error x, .error y =>
      if h : x = y then isTrue (by rw [h])
      else isFalse (by intro hc; cases hc; exact h rfl)
  | .ok _, .error _ => isFalse (by intro hc; cases hc)
  | .error _, .ok _ => isFalse (by intro hc; cases hc)

/-- The partition invariant is decidable (used to check the concrete
runs). -/
instance (inv : PlayerInventory) : Decidable (invOk inv) := by
  unfold invOk
  infer_instance

/-- `PlayerInventory.__init__` establishes the partition invariant whenever
the wrapped items all carry distinct, valid slot addresses. -/
theorem invOk_ofNbt (items : List Item)
    (hall : ∀ i ∈ items, i.slot.isSome = true)
    (hnd : (occupiedSlots items).Nodup)
    (hval : ∀ x ∈ occupiedSlots items, mainSlotP x ∨ armorSlotP x) :
    invOk (PlayerInventory.ofNbt items) := by
  by_cases hlen : items.length = 40
  · have hrw : PlayerInventory.ofNbt items =
        ⟨items, [], []⟩ := by
      unfold PlayerInventory.ofNbt
      rw [if_pos hlen]
    rw [hrw]
    have hocc40 : (occupiedSlots items).length = 40 := by
      rw [occupiedSlots_length items hall, hlen]
    have hAllNodup : allSlots.Nodup := by decide
    have hAllLen : allSlots.length = 40 := by decide
    have hsub : (occupiedSlots items).toFinset ⊆ allSlots.toFinset := by
      intro x hx
      rw [List.mem_toFinset] at hx ⊢
      exact (mem_allSlots x).mpr (hval x hx)
    have hcard1 : (occupiedSlots items).toFinset.card = 40 := by
      rw [List.toFinset_card_of_nodup hnd, hocc40]
    have hcard2 : allSlots.toFinset.card = 40 := by
      rw [List.toFinset_card_of_nodup hAllNodup, hAllLen]
    have heq := Finset.eq_of_subset_of_card_le hsub (by omega)
    refine ⟨hall, hnd, hval, by simp, by simp, by simp, by simp, ?_,
      by simp, by simp⟩
    intro s hs
    left
    have hmem : s ∈ allSlots.toFinset := List.mem_toFinset.mpr hs
    rw [← heq] at hmem
    exact List.mem_toFinset.mp hmem
  · have hrw : PlayerInventory.ofNbt items =
        ⟨items,
         ((List.range 36).map (fun n : Nat => (n : Int))).filter
           (fun s => decide (s ∉ occupiedSlots items)),
         ([100, 101, 102, 103] : List Int).filter
           (fun s => decide (s ∉ occupiedSlots items))⟩ := by
      unfold PlayerInventory.ofNbt
      rw [if_neg hlen]
    rw [hrw]
    refine ⟨hall, hnd, hval, ?_, ?_, ?_, ?_, ?_, ?_, ?_⟩
    · intro s hs
      exact (mem_mainRange s).mp (List.mem_filter.mp hs).1
    · intro s hs
      exact (mem_armorRange s).mp (List.mem_filter.mp hs).1
    · exact List.Nodup.filter _
        (List.Nodup.map (fun a b h => by exact_mod_cast h)
          (List.nodup_range 36))
    · exact List.Nodup.filter _ (by decide)
    · intro s hs
      rcases List.mem_append.mp hs with h1 | h2
      · by_cases hocc : s ∈ occupiedSlots items
        · exact Or.inl hocc
        · exact Or.inr (Or.inl (List.mem_filter.mpr ⟨h1, by simp [hocc]⟩))
      · by_cases hocc : s ∈ occupiedSlots items
        · exact Or.inl hocc
        · exact Or.inr (Or.inr (List.mem_filter.mpr ⟨h2, by simp [hocc]⟩))
    · intro s hs
      have := (List.mem_filter.mp hs).2
      simpa using this
    · intro s hs
      have := (List.mem_filter.mp hs).2
      simpa using this

/-- Every successful `add_item` preserves the partition invariant. -/
theorem invOk_add (inv : PlayerInventory) (it : Item) (w c : Bool)
    (inv' : PlayerInventory) (s : Int) (hok : invOk inv)
    (hadd : inv.add_item it w c = (inv', .ok s)) : invOk inv' := by
  obtain ⟨hitems, hdisj⟩ := add_item_ok_char inv it w c inv' s hadd
  obtain ⟨h1, h2, h3, h4, h5, h6, h7, h8, h9, h10⟩ := hok
  have hocc' : occupiedSlots inv'.items = occupiedSlots inv.items ++ [s] := by
    rw [hitems, occupiedSlots_append_set_slot]
  have hitems' : ∀ i ∈ inv'.items, i.slot.isSome = true := by
    intro i hi
    rw [hitems] at hi
    rcases List.mem_append.mp hi with hi | hi
    · exact h1 i hi
    · rcases List.mem_singleton.mp hi with rfl
      rfl
  rcases hdisj with ⟨hsmem, hfs, hfa⟩ | ⟨hfs, hfa⟩
  · have hsarmor : armorSlotP s := h5 s hsmem
    have hsnotocc : s ∉ occupiedSlots inv.items := h10 s hsmem
    refine ⟨hitems', ?_, ?_, ?_, ?_, ?_, ?_, ?_, ?_, ?_⟩
    · rw [hocc', List.nodup_append]
      refine ⟨h2, List.nodup_singleton s, ?_⟩
      intro x hx hx2
      rcases List.mem_singleton.mp hx2 with rfl
      exact hsnotocc hx
    · intro x hx
      rw [hocc'] at hx
      rcases List.mem_append.mp hx with hx | hx
      · exact h3 x hx
      · rcases List.mem_singleton.mp hx with rfl
        exact Or.inr hsarmor
    · rw [hfs]; exact h4
    · intro x hx
      rw [hfa] at hx
      exact h5 x (List.mem_of_mem_erase hx)
    · rw [hfs]; exact h6
    · rw [hfa]; exact List.Nodup.erase s h7
    · intro x hx
      rcases h8 x hx with hx1 | hx1 | hx1
      · exact Or.inl (hocc' ▸ List.mem_append_left _ hx1)
      · exact Or.inr (Or.inl (hfs ▸ hx1))
      · by_cases hxs : x = s
        · subst hxs
          exact Or.inl (hocc' ▸ List.mem_append_right _ (by simp))
        · exact Or.inr (Or.inr (hfa ▸ (List.mem_erase_of_ne hxs).mpr hx1))
    · intro x hx
      rw [hfs] at hx
      rw [hocc']
      intro hmem
      rcases List.mem_append.mp hmem with hm | hm
      · exact h9 x hx hm
      · rcases List.mem_singleton.mp hm with rfl
        have hxm := h4 x hx
        unfold mainSlotP at hxm
        unfold armorSlotP at hsarmor
        omega
    · intro x hx
      rw [hfa] at hx
      have hxne : x ≠ s := by
        intro hcon
        subst hcon
        exact (List.Nodup.not_mem_erase h7) hx
      have hxmem : x ∈ inv.free_armor := List.mem_of_mem_erase hx
      rw [hocc']
      intro hmem
      rcases List.mem_append.mp hmem with hm | hm
      · exact h10 x hxmem hm
      · exact hxne (List.mem_singleton.mp hm)
  · have hsmem : s ∈ inv.free_slots := by rw [hfs]; simp
    have hsmain : mainSlotP s := h4 s hsmem
    have hsnotocc : s ∉ occupiedSlots inv.items := h9 s hsmem
    have hcons : (s :: inv'.free_slots).Nodup := hfs ▸ h6
    have hrest : inv'.free_slots.Nodup := (List.nodup_cons.mp hcons).2
    have hsnotrest : s ∉ inv'.free_slots := (List.nodup_cons.mp hcons).1
    have hsubfs : ∀ x ∈ inv'.free_slots, x ∈ inv.free_slots := by
      intro x hx
      rw [hfs]
      exact List.mem_cons_of_mem _ hx
    refine ⟨hitems', ?_, ?_, ?_, ?_, hrest, ?_, ?_, ?_, ?_⟩
    · rw [hocc', List.nodup_append]
      refine ⟨h2, List.nodup_singleton s, ?_⟩
      intro x hx hx2
      rcases List.mem_singleton.mp hx2 with rfl
      exact hsnotocc hx
    · intro x hx
      rw [hocc'] at hx
      rcases List.mem_append.mp hx with hx | hx
      · exact h3 x hx
      · rcases List.mem_singleton.mp hx with rfl
        exact Or.inl hsmain
    · intro x hx
      exact h4 x (hsubfs x hx)
    · intro x hx
      rw [hfa] at hx
      exact h5 x hx
    · rw [hfa]; exact h7
    · intro x hx
      rcases h8 x hx with hx1 | hx1 | hx1
      · exact Or.inl (hocc' ▸ List.mem_append_left _ hx1)
      · rw [hfs] at hx1
        rcases List.mem_cons.mp hx1 with rfl | hx1
        · exact Or.inl (hocc' ▸ List.mem_append_right _ (by simp))
        · exact Or.inr (Or.inl hx1)
      · exact Or.inr (Or.inr (hfa ▸ hx1))
    · intro x hx
      rw [hocc']
      intro hmem
      rcases List.mem_append.mp hmem with hm | hm
      · exact h9 x (hsubfs x hx) hm
      · rcases List.mem_singleton.mp hm with rfl
        exact hsnotrest hx
    · intro x hx
      rw [hfa] at hx
      rw [hocc']
      intro hmem
      rcases List.mem_append.mp hmem with hm | hm
      · exact h10 x hx hm
      · rcases List.mem_singleton.mp hm with rfl
        have hxm := h5 x hx
        unfold mainSlotP at hsmain
        unfold armorSlotP at hxm
        omega

/-- C2: the occupied slots of the wrapped items together with the two free
lists computed by `PlayerInventory.__init__` exactly partition the valid
slot-address space with no two items sharing a slot; and every successful
`add_item` preserves the partition, grows the inventory by exactly one item
and removes exactly the used slot from the corresponding free list. -/
theorem inventory_slot_partition (items : List Item)
    (inv inv' : PlayerInventory) (it : Item) (w c : Bool) (s : Int)
    (hall : ∀ i ∈ items, i.slot.isSome = true)
    (hnd : (occupiedSlots items).Nodup)
    (hval : ∀ x ∈ occupiedSlots items, mainSlotP x ∨ armorSlotP x)
    (hok : invOk inv)
    (hadd : inv.add_item it w c = (inv', .ok s)) :
    invOk (PlayerInventory.ofNbt items) ∧
    invOk inv' ∧
    inv'.items.length = inv.items.length + 1 ∧
    ((s ∈ inv.free_armor ∧ inv'.free_slots = inv.free_slots ∧
        inv'.free_armor = inv.free_armor.erase s) ∨
     (inv.free_slots = s :: inv'.free_slots ∧
        inv'.free_armor = inv.free_armor)) := by
  obtain ⟨hitems, hdisj⟩ := add_item_ok_char inv it w c inv' s hadd
  refine ⟨invOk_ofNbt items hall hnd hval,
    invOk_add inv it w c inv' s hok hadd, ?_, hdisj⟩
  rw [hitems]
  simp

/-- Concrete run of `inventory_slot_partition`: initialization from one
slotted stack of arrows, and boots added to an empty inventory taking armor
slot 100. -/
theorem inventory_slot_partition_witness :
    invOk (PlayerInventory.ofNbt [sampleArrows 40 (some 5)]) ∧
    invOk { items := (PlayerInventory.ofNbt []).items
              ++ [(sampleBoots none).set_slot 100],
            free_slots := (PlayerInventory.ofNbt []).free_slots,
            free_armor := (PlayerInventory.ofNbt []).free_armor.erase 100 } ∧
    ({ items := (PlayerInventory.ofNbt []).items
          ++ [(sampleBoots none).set_slot 100],
       free_slots := (PlayerInventory.ofNbt []).free_slots,
       free_armor := (PlayerInventory.ofNbt []).free_armor.erase 100 }
        : PlayerInventory).items.length
      = (PlayerInventory.ofNbt []).items.length + 1 ∧
    (((100 : Int) ∈ (PlayerInventory.ofNbt []).free_armor ∧
        ({ items := (PlayerInventory.ofNbt []).items
              ++ [(sampleBoots none).set_slot 100],
           free_slots := (PlayerInventory.ofNbt []).free_slots,
           free_armor := (PlayerInventory.ofNbt []).free_armor.erase 100 }
            : PlayerInventory).free_slots = (PlayerInventory.ofNbt []).free_slots ∧
        ({ items := (PlayerInventory.ofNbt []).items
              ++ [(sampleBoots none).set_slot 100],
           free_slots := (PlayerInventory.ofNbt []).free_slots,
           free_armor := (PlayerInventory.ofNbt []).free_armor.erase 100 }
            : PlayerInventory).free_armor
          = (PlayerInventory.ofNbt []).free_armor.erase 100) ∨
     ((PlayerInventory.ofNbt []).free_slots = 100 ::
        ({ items := (PlayerInventory.ofNbt []).items
              ++ [(sampleBoots none).set_slot 100],
           free_slots := (PlayerInventory.ofNbt []).free_slots,
           free_armor := (PlayerInventory.ofNbt []).free_armor.erase 100 }
            : PlayerInventory).free_slots ∧
        ({ items := (PlayerInventory.ofNbt []).items
              ++ [(sampleBoots none).set_slot 100],
           free_slots := (PlayerInventory.ofNbt []).free_slots,
           free_armor := (PlayerInventory.ofNbt []).free_armor.erase 100 }
            : PlayerInventory).free_armor
          = (PlayerInventory.ofNbt []).free_armor)) :=
  inventory_slot_partition [sampleArrows 40 (some 5)]
    (PlayerInventory.ofNbt [])
    { items := (PlayerInventory.ofNbt []).items
        ++ [(sampleBoots none).set_slot 100],
      free_slots := (PlayerInventory.ofNbt []).free_slots,
      free_armor := (PlayerInventory.ofNbt []).free_armor.erase 100 }
    (sampleBoots none) true true 100
    (by decide) (by decide) (by decide) (by decide) (by decide)
